import Mathlib

/-!
Verification of the CodeceptJS `subtitles` plugin (`lib/plugin/subtitles.js`).

The plugin is embedded shallowly: its module-level mutable state becomes an
explicit `State` value, each event handler becomes a function from handler
input and `State` to `State` (the `event.test.after` handler additionally
returns the file write it performs), and JavaScript numbers are modelled as
`Nat` (all quantities involved are non-negative integers: `Date.now()`
instants and millisecond durations).
-/

namespace Subtitles

/-- JavaScript `String.prototype.padStart(w, c)` for a one-character pad. -/
def padStart (s : String) (w : Nat) (c : Char) : String :=
  if w ≤ s.length then s else String.mk (List.replicate (w - s.length) c) ++ s

/-- Embedding of `formatTimestamp(timestampInMs)`.

The source builds `new Date(0, 0, 0, 0, 0, 0, timestampInMs)` and reads the
components back with `getHours`/`getMinutes`/`getSeconds`.  The `Date`
constructor normalises the millisecond overflow into days, and the getters
return local-time components of the resulting instant, so — under a time zone
whose UTC offset is constant over the interval spanned by the computation
(offsets are whole minutes) — `getHours` yields the hour of day, i.e. the
total hours reduced `mod 24`, `getMinutes` the total minutes `mod 60` and
`getSeconds` the total seconds `mod 60`.  The remainder `ms` is computed
exactly as in the source:
`timestampInMs - (hours * 3600000 + minutes * 60000 + seconds * 1000)`. -/
def formatTimestamp (timestampInMs : Nat) : String :=
  let hours := timestampInMs / 3600000 % 24
  let minutes := timestampInMs / 60000 % 60
  let seconds := timestampInMs / 1000 % 60
  let ms := timestampInMs - (hours * 3600000 + minutes * 60000 + seconds * 1000)
  padStart (toString hours) 2 '0' ++ ":" ++ padStart (toString minutes) 2 '0' ++ ":" ++
    padStart (toString seconds) 2 '0' ++ "#" ++ padStart (toString ms) 3 '0'

/-- Numeric value of a decimal digit character, `none` otherwise. -/
def digitVal (c : Char) : Option Nat :=
  if '0' ≤ c ∧ c ≤ '9' then some (c.toNat - 48) else none

/-- Modelled from the spec: the paired parser that reads a timestamp of the
exact shape `HH:MM:SS#mmm` (two-digit hours, minutes and seconds, a `#`, and
three-digit milliseconds) and reconstructs
`hours * 3600000 + minutes * 60000 + seconds * 1000 + milliseconds`. -/
def parseTimestamp (s : String) : Option Nat :=
  match s.data with
  | [h1, h2, ':', m1, m2, ':', s1, s2, '#', d1, d2, d3] =>
    match digitVal h1, digitVal h2, digitVal m1, digitVal m2, digitVal s1, digitVal s2,
      digitVal d1, digitVal d2, digitVal d3 with
    | some a, some b, some c, some d, some e, some f, some g, some h, some i =>
      some ((10 * a + b) * 3600000 + (10 * c + d) * 60000 + (10 * e + f) * 1000 +
        (100 * g + 10 * h + i))
    | _, _, _, _, _, _, _, _, _ => none
  | _ => none

/-- A value of `steps[step.id]`: raw start instant, formatted start offset,
display title, and the formatted end offset, absent until the step finishes
(`end` is written only by the `event.step.finished` handler). -/
structure StepRecord where
  start : String
  startedAt : Nat
  title : String
  «end» : Option String
deriving DecidableEq

/-- Module-level mutable state of the plugin.  `steps` is a plain object with
uuid keys; uuids are non-numeric property names, so JavaScript enumerates them
in insertion order — it is modelled as an insertion-ordered association
list.  `testStartedAt` is the `Date.now()` instant of the last test start. -/
structure State where
  steps : List (String × StepRecord)
  testStartedAt : Nat
deriving DecidableEq

/-- JavaScript object property write `o[k] = v`: an existing key keeps its
position, a fresh key is appended at the end. -/
def setKey : List (String × StepRecord) → String → StepRecord → List (String × StepRecord)
  | [], k, v => [(k, v)]
  | p :: ps, k, v => if p.1 = k then (k, v) :: ps else p :: setKey ps k v

/-- JavaScript object property read `o[k]` (`none` for a missing key). -/
def lookupKey : List (String × StepRecord) → String → Option StepRecord
  | [], _ => none
  | p :: ps, k => if p.1 = k then some p.2 else lookupKey ps k

/-- Handler for `event.test.before`: `testStartedAt = Date.now(); steps = {}`. -/
def testBefore (now : Nat) (_st : State) : State :=
  { steps := [], testStartedAt := now }

/-- JavaScript `step.args ? step.args.join(',') : ''` (a missing argument list
is modelled as `none`; an empty array is truthy and also joins to `""`). -/
def joinArgs : Option (List String) → String
  | none => ""
  | some args => String.intercalate "," args

/-- The title string before truncation:
`` `${step.actor}.${step.name}(${step.args ? step.args.join(',') : ''})` ``. -/
def rawTitle (actor name : String) (args : Option (List String)) : String :=
  actor ++ "." ++ name ++ "(" ++ joinArgs args ++ ")"

/-- The stored title: when the raw title exceeds 100 characters it becomes
`` `${title.substring(0, 100)}...` ``, otherwise it is kept as is. -/
def mkTitle (actor name : String) (args : Option (List String)) : String :=
  let title := rawTitle actor name args
  if title.length > 100 then title.take 100 ++ "..." else title

/-- Handler for `event.step.started`.  `now` is `Date.now()` at entry and `id`
the fresh uuid assigned to `step.id`; the new record is stored under that
key.  `Date.now()` is non-decreasing, so `now - testStartedAt` matches the
JavaScript subtraction. -/
def stepStarted (now : Nat) (id : String) (actor name : String)
    (args : Option (List String)) (st : State) : State :=
  { st with
    steps := setKey st.steps id
      { start := formatTimestamp (now - st.testStartedAt)
        startedAt := now
        title := mkTitle actor name args
        «end» := none } }

/-- The step descriptor as tested by the `event.step.finished` handler; the
guard `step && step.id` is the JavaScript truthiness test, so a missing
descriptor is `none` and a missing id is `id = none` (an empty-string id is
also falsy and handled by the `i = ""` test below). -/
structure StepDescr where
  id : Option String

/-- Handler for `event.step.finished`:
`if (step && step.id && steps[step.id]) steps[step.id].end = formatTimestamp(Date.now() - testStartedAt)`. -/
def stepFinished (step : Option StepDescr) (now : Nat) (st : State) : State :=
  match step with
  | none => st
  | some s =>
    match s.id with
    | none => st
    | some i =>
      if i = "" then st
      else
        match lookupKey st.steps i with
        | none => st
        | some r =>
          { st with
            steps := setKey st.steps i
              { r with «end» := some (formatTimestamp (now - st.testStartedAt)) } }

/-- The ordering induced by the comparator
`(stepA, stepB) => stepA.startedAt - stepB.startedAt`. -/
def stepLE (a b : StepRecord) : Prop := a.startedAt ≤ b.startedAt

instance : DecidableRel stepLE := fun a b => Nat.decLe a.startedAt b.startedAt

instance : IsTotal StepRecord stepLE := ⟨fun a b => Nat.le_total a.startedAt b.startedAt⟩

instance : IsTrans StepRecord stepLE := ⟨fun _ _ _ h h2 => Nat.le_trans h h2⟩

/-- JavaScript `Array.prototype.sort` with the comparator above.  ECMA-262
requires the sort to be stable, so it is modelled as stable insertion sort. -/
def sortSteps (l : List StepRecord) : List StepRecord := List.insertionSort stepLE l

/-- JavaScript `s.replace('#', rep)`: replaces the first occurrence only. -/
def replaceHashAux (rep : String) : List Char → List Char
  | [] => []
  | c :: cs => if c = '#' then rep.data ++ cs else c :: replaceHashAux rep cs

/-- String-level wrapper for `replaceHashAux`. -/
def replaceHash (s : String) (rep : String) : String := String.mk (replaceHashAux rep s.data)

/-- One cue appended by the loop body:
`` `${index + 1}\n${start} --> ${end}\n${title}\n\n` `` with `'#'` replaced by
the millisecond separator in both timestamps. -/
def cueBlock (msId : String) (n : Nat) (start endTs title : String) : String :=
  toString n ++ "\n" ++ replaceHash start msId ++ " --> " ++ replaceHash endTs msId ++ "\n" ++
    title ++ "\n\n"

/-- The `stepsSortedByStartTime.forEach((step, index) => ...)` loop: `i` is the
zero-based index in the full sorted list; a step without `end` contributes no
cue but still advances the index. -/
def cuesFrom (msId : String) : Nat → List StepRecord → String
  | _, [] => ""
  | i, r :: rs =>
    (match r.«end» with
     | some e => cueBlock msId (i + 1) r.start e r.title
     | none => "") ++ cuesFrom msId (i + 1) rs

/-- The cue portion of the subtitle document. -/
def cueText (msId : String) (l : List StepRecord) : String := cuesFrom msId 0 l

/-- `config.format === 'WEBVTT' ? 'vtt' : 'srt'`; `format` is absent (`none`)
when the configuration does not set it, and strict equality is false then. -/
def subtitleExt (format : Option String) : String :=
  if format = some "WEBVTT" then "vtt" else "srt"

/-- The subtitle document built by the `event.test.after` handler from the
sorted step list: `'WEBVTT\n\n'` as initial value for vtt (empty for srt),
then the cues with `'.'` (vtt) or `','` (srt) as millisecond separator. -/
def subtitleContent (format : Option String) (l : List StepRecord) : String :=
  (if subtitleExt format = "vtt" then "WEBVTT\n\n" else "") ++
    cueText (if subtitleExt format = "vtt" then "." else ",") l

/-- Index of the last occurrence of `c` in a character list. -/
def lastIdx (c : Char) : List Char → Option Nat
  | [] => none
  | x :: xs =>
    match lastIdx c xs with
    | some i => some (i + 1)
    | none => if x = c then some 0 else none

/-- Node `path.parse(p).dir` (posix): everything before the last `/`, with
`""` when there is no slash and `"/"` when the only slash is leading. -/
def pathDir (p : String) : String :=
  match lastIdx '/' p.data with
  | none => ""
  | some 0 => "/"
  | some i => String.mk (p.data.take i)

/-- Node `path.parse(p).base` (posix): everything after the last `/`. -/
def pathBase (p : String) : String :=
  match lastIdx '/' p.data with
  | none => p
  | some i => String.mk (p.data.drop (i + 1))

/-- Node `path.parse(p).name` (posix): the base without its extension; a dot
at the start of the base does not begin an extension. -/
def pathName (p : String) : String :=
  let b := pathBase p
  match lastIdx '.' b.data with
  | none => b
  | some 0 => b
  | some i => String.mk (b.data.take i)

/-- The artifact map of a test result. -/
structure Artifacts where
  video : Option String
  subtitle : Option String
deriving DecidableEq

/-- The test result as consumed by the `event.test.after` handler (`none`
models a falsy `test`, `artifacts = none` a falsy `test.artifacts`). -/
structure TestObj where
  artifacts : Option Artifacts
deriving DecidableEq

/-- Handler for `event.test.after`.  The first component is the file write it
performs — `some (path, contents)` for `fsPromise.writeFile(path, contents)`,
`none` when no file is written — and the second is the test object after the
handler ran (`test.artifacts.subtitle` is assigned the output path exactly
when the file is written). -/
def testAfter (format : Option String) (st : State) (t : Option TestObj) :
    Option (String × String) × Option TestObj :=
  match t with
  | none => (none, none)
  | some t =>
    match t.artifacts with
    | none => (none, some t)
    | some a =>
      match a.video with
      | none => (none, some t)
      | some v =>
        if v = "" then (none, some t)
        else
          let content := subtitleContent format (sortSteps (st.steps.map Prod.snd))
          let outPath := pathDir v ++ "/" ++ pathName v ++ "." ++ subtitleExt format
          (some (outPath, content),
            some { artifacts := some { video := some v, subtitle := some outPath } })

/-- Modelled from the spec: cue numbering that is 1-based and consecutive over
the finished steps only — a step without `end` contributes no cue and does not
advance the number. -/
def cuesSpec (msId : String) : Nat → List StepRecord → String
  | _, [] => ""
  | i, r :: rs =>
    match r.«end» with
    | some e => cueBlock msId (i + 1) r.start e r.title ++ cuesSpec msId (i + 1) rs
    | none => cuesSpec msId i rs

/-! ### Helper lemmas -/

theorem data_append (a b : String) : (a ++ b).data = a.data ++ b.data := rfl

theorem str_append_assoc : ∀ (a b c : String), a ++ b ++ c = a ++ (b ++ c)
  | ⟨a⟩, ⟨b⟩, ⟨c⟩ => congrArg String.mk (List.append_assoc a b c)

theorem lookup_setKey_self :
    ∀ (l : List (String × StepRecord)) (k : String) (v : StepRecord),
      lookupKey (setKey l k v) k = some v
  | [], k, v => by simp [setKey, lookupKey]
  | p :: ps, k, v => by
    by_cases h : p.1 = k
    · simp [setKey, lookupKey, h]
    · simp only [setKey, if_neg h, lookupKey]
      exact lookup_setKey_self ps k v

theorem lookup_setKey_ne :
    ∀ (l : List (String × StepRecord)) (k k' : String) (v : StepRecord),
      k' ≠ k → lookupKey (setKey l k v) k' = lookupKey l k'
  | [], k, k', v, h => by
    simp only [setKey, lookupKey]
    rw [if_neg fun hh => h hh.symm]
  | p :: ps, k, k', v, h => by
    by_cases hp : p.1 = k
    · simp only [setKey, if_pos hp, lookupKey]
      rw [if_neg fun hh : k = k' => h hh.symm, if_neg fun hh : p.1 = k' => h (hp.symm.trans hh).symm]
    · simp only [setKey, if_neg hp, lookupKey]
      by_cases hp' : p.1 = k'
      · rw [if_pos hp', if_pos hp']
      · rw [if_neg hp', if_neg hp']
        exact lookup_setKey_ne ps k k' v h

/-- Projection of a stored step onto everything except the `end` field. -/
def stepProj (p : String × StepRecord) : String × Nat × String × String :=
  (p.1, p.2.startedAt, p.2.start, p.2.title)

theorem map_stepProj_setKey_end (l : List (String × StepRecord)) (k : String) (r : StepRecord)
    (e : Option String) (h : lookupKey l k = some r) :
    (setKey l k { r with «end» := e }).map stepProj = l.map stepProj := by
  induction l with
  | nil => simp [lookupKey] at h
  | cons p ps ih =>
    by_cases hp : p.1 = k
    · simp only [lookupKey, hp, if_pos] at h
      cases Option.some.inj h
      simp [setKey, hp, stepProj]
    · simp only [lookupKey, hp, if_neg, if_false] at h
      simp [setKey, hp, ih h]

end Subtitles

namespace Subtitles

/-! ### Claim C1 -/

/-- C1: the claim states that `formatTimestamp` never reduces the hours
component modulo 24 and that `formatTimestamp 90000000` shows `25` in the hour
field.  The code reads the hour back with `Date.prototype.getHours`, which
returns the hour of day, so hours wrap at 24: at 25 hours the output is
`"01:00:00#86400000"` (the remainder computation then also overflows the
three-digit millisecond field), not `"25:00:00#000"`. -/
theorem C1_hours_wrap_at_24 :
    formatTimestamp 90000000 = "01:00:00#86400000" ∧
      formatTimestamp 90000000 ≠ "25:00:00#000" := by
  constructor
  · decide
  · decide

/-! ### Claim C3 -/

/-- C3: the claim states that `parse ∘ format` is the identity on all
non-negative millisecond inputs, for the paired parser of the
`HH:MM:SS#mmm` grammar.  The round-trip does hold below 24 hours (shown here
at 3723004 ms), but at `m = 90000000` the formatter wraps the hours and emits
`"01:00:00#86400000"`, which does not match the `HH:MM:SS#mmm` shape at all,
so the parser rejects it and the round-trip fails. -/
theorem C3_roundtrip_fails_at_25h :
    parseTimestamp (formatTimestamp 3723004) = some 3723004 ∧
      parseTimestamp (formatTimestamp 90000000) = none ∧
      parseTimestamp (formatTimestamp 90000000) ≠ some 90000000 := by
  refine ⟨by decide, by decide, by decide⟩

/-! ### Claim C9 -/

/-- C9: every `event.test.before` replaces the step mapping with an empty one
and sets the time base to the current instant, whatever the previous state
was; afterwards no key is mapped, so no earlier `StepRecord` is observable. -/
theorem C9_testBefore_resets :
    ∀ (now : Nat) (st : State),
      testBefore now st = { steps := [], testStartedAt := now } ∧
        (testBefore now st).steps = [] ∧
        (testBefore now st).testStartedAt = now ∧
        ∀ k : String, lookupKey (testBefore now st).steps k = none := by
  intro now st
  exact ⟨rfl, rfl, rfl, fun _ => rfl⟩

/-! ### Claim C5 -/

/-- C5: on step start the stored title is
`"{actor}.{name}({args joined by comma})"`; when that string exceeds 100
characters the stored title is its first 100 characters followed by `"..."`,
and otherwise it is stored unmodified.  The last conjunct ties this to the
`event.step.started` handler: the record stored under the fresh id carries
exactly this title. -/
theorem C5_title_truncation :
    ∀ (actor name : String) (args : Option (List String)),
      ((rawTitle actor name args).length > 100 →
        mkTitle actor name args = (rawTitle actor name args).take 100 ++ "...") ∧
      ((rawTitle actor name args).length ≤ 100 →
        mkTitle actor name args = rawTitle actor name args) ∧
      (∀ (now : Nat) (id : String) (st : State),
        lookupKey ((stepStarted now id actor name args st).steps) id =
          some { start := formatTimestamp (now - st.testStartedAt), startedAt := now,
                 title := mkTitle actor name args, «end» := none }) := by
  intro actor name args
  refine ⟨fun h => ?_, fun h => ?_, fun now id st => ?_⟩
  · simp only [mkTitle, if_pos h]
  · simp only [mkTitle, if_neg (Nat.not_lt.mpr h)]
  · exact lookup_setKey_self ..

set_option maxRecDepth 4000 in
/-- Witness for C5 at concrete inputs: a 120-character actor forces
truncation; a short title is stored unmodified. -/
theorem C5_title_truncation_witness :
    mkTitle (String.mk (List.replicate 120 'a')) "x" none =
      (rawTitle (String.mk (List.replicate 120 'a')) "x" none).take 100 ++ "..." ∧
    mkTitle "I" "click" (some ["btn"]) = rawTitle "I" "click" (some ["btn"]) :=
  ⟨(C5_title_truncation (String.mk (List.replicate 120 'a')) "x" none).1 (by decide),
   (C5_title_truncation "I" "click" (some ["btn"])).2.1 (by decide)⟩

/-! ### Claim C6 -/

/-- C6: the `event.step.finished` handler is a total function (it never
raises) and is the identity whenever the descriptor is missing, the id is
missing (or falsy), or the id matches no stored record; when a record exists
it only gains an `end` offset — `testStartedAt` and every other key's record
are unchanged. -/
theorem C6_stepFinished_noop_or_end_only :
    (∀ (now : Nat) (st : State), stepFinished none now st = st) ∧
    (∀ (now : Nat) (st : State), stepFinished (some ⟨none⟩) now st = st) ∧
    (∀ (now : Nat) (st : State), stepFinished (some ⟨some ""⟩) now st = st) ∧
    (∀ (i : String) (now : Nat) (st : State), lookupKey st.steps i = none →
      stepFinished (some ⟨some i⟩) now st = st) ∧
    (∀ (i : String) (r : StepRecord) (now : Nat) (st : State),
      i ≠ "" → lookupKey st.steps i = some r →
      (stepFinished (some ⟨some i⟩) now st).testStartedAt = st.testStartedAt ∧
      lookupKey (stepFinished (some ⟨some i⟩) now st).steps i =
        some { r with «end» := some (formatTimestamp (now - st.testStartedAt)) } ∧
      (∀ k : String, k ≠ i →
        lookupKey (stepFinished (some ⟨some i⟩) now st).steps k = lookupKey st.steps k)) := by
  refine ⟨fun now st => rfl, fun now st => rfl, fun now st => rfl,
    fun i now st h => ?_, fun i r now st hi h => ?_⟩
  · by_cases hi : i = ""
    · simp [stepFinished, hi]
    · simp [stepFinished, hi, h]
  · have hdef : stepFinished (some ⟨some i⟩) now st =
        { st with
          steps := setKey st.steps i
              ({ r with «end» := some (formatTimestamp (now - st.testStartedAt)) }) } := by
      simp [stepFinished, hi, h]
    refine ⟨by rw [hdef], ?_, fun k hk => ?_⟩
    · rw [hdef]
      exact lookup_setKey_self ..
    · rw [hdef]
      exact lookup_setKey_ne _ _ _ _ hk

/-- Example record and state used by concrete witnesses. -/
def recEx : StepRecord :=
  { start := "00:00:00#000", startedAt := 100, title := "I.click(btn)", «end» := none }

/-- Example state with a single recorded step under key `"a"`. -/
def stEx : State := { steps := [("a", recEx)], testStartedAt := 100 }

/-- Witness for C6 at concrete inputs: an unknown id is a no-op, a known id
gains exactly its end offset. -/
theorem C6_stepFinished_witness :
    stepFinished (some ⟨some "zz"⟩) 350 stEx = stEx ∧
    lookupKey (stepFinished (some ⟨some "a"⟩) 350 stEx).steps "a" =
      some { recEx with «end» := some (formatTimestamp (350 - stEx.testStartedAt)) } :=
  ⟨(C6_stepFinished_noop_or_end_only.2.2.2.1) "zz" 350 stEx (by decide),
   ((C6_stepFinished_noop_or_end_only.2.2.2.2) "a" recEx 350 stEx (by decide) (by decide)).2.1⟩

/-! ### Claim C4 -/

theorem str_empty_append : ∀ s : String, "" ++ s = s
  | ⟨_⟩ => rfl

theorem str_append_empty : ∀ s : String, s ++ "" = s
  | ⟨l⟩ => congrArg String.mk (List.append_nil l)

theorem filter_orderedInsert (a : StepRecord) (t : Nat) :
    ∀ l : List StepRecord,
      (List.orderedInsert stepLE a l).filter (fun r => r.startedAt == t) =
        if a.startedAt = t then a :: l.filter (fun r => r.startedAt == t)
        else l.filter (fun r => r.startedAt == t)
  | [] => by
    by_cases h : a.startedAt = t
    · have hbt : (a.startedAt == t) = true := beq_iff_eq.mpr h
      simp [List.orderedInsert, List.filter, h, hbt]
    · have hbt : (a.startedAt == t) = false := beq_eq_false_iff_ne.mpr h
      simp [List.orderedInsert, List.filter, h, hbt]
  | b :: l => by
    by_cases hab : stepLE a b
    · rw [List.orderedInsert, if_pos hab]
      by_cases h : a.startedAt = t <;> simp [List.filter_cons, h]
    · rw [List.orderedInsert, if_neg hab]
      have hb : b.startedAt < a.startedAt := Nat.not_le.mp hab
      by_cases h : a.startedAt = t
      · have hbt : (b.startedAt == t) = false :=
          beq_eq_false_iff_ne.mpr (fun hh => (Nat.ne_of_lt hb) (hh.trans h.symm))
        simp [List.filter_cons, hbt, filter_orderedInsert a t l, h]
      · simp [List.filter_cons, filter_orderedInsert a t l, h]

theorem filter_sortSteps (t : Nat) :
    ∀ l : List StepRecord,
      (sortSteps l).filter (fun r => r.startedAt == t) = l.filter (fun r => r.startedAt == t)
  | [] => rfl
  | a :: l => by
    show (List.orderedInsert stepLE a (List.insertionSort stepLE l)).filter _ = _
    rw [filter_orderedInsert]
    have hs : List.insertionSort stepLE l = sortSteps l := rfl
    by_cases h : a.startedAt = t
    · rw [if_pos h, hs, filter_sortSteps t l]
      have hbt : (a.startedAt == t) = true := beq_iff_eq.mpr h
      simp [List.filter_cons, hbt]
    · rw [if_neg h, hs, filter_sortSteps t l]
      have hbt : (a.startedAt == t) = false := beq_eq_false_iff_ne.mpr h
      simp [List.filter_cons, hbt]

/-- C4: the emitted cue order is the stable sort of the recorded steps by raw
start instant.  `sortSteps` is a permutation of the recorded list, it is
sorted by `startedAt` (so a step with a strictly smaller start instant always
precedes one with a larger start instant), and it is stable: for every start
instant `t`, the steps with that instant keep exactly their original
insertion order.  The last conjunct makes the order independent of the order
in which finish events arrive: `event.step.finished` never changes any key,
`startedAt`, `start` or `title` — it can only set `end` — so the sorted
sequence of cue positions is the same for every finish arrival order. -/
theorem C4_sort_stable_and_finish_independent :
    (∀ l : List StepRecord, (sortSteps l).Perm l) ∧
    (∀ l : List StepRecord, List.Sorted stepLE (sortSteps l)) ∧
    (∀ (l : List StepRecord) (t : Nat),
      (sortSteps l).filter (fun r => r.startedAt == t) =
        l.filter (fun r => r.startedAt == t)) ∧
    (∀ (step : Option StepDescr) (now : Nat) (st : State),
      ((stepFinished step now st).steps).map stepProj = st.steps.map stepProj) := by
  refine ⟨fun l => List.perm_insertionSort stepLE l, fun l => List.sorted_insertionSort stepLE l,
    fun l t => filter_sortSteps t l, fun step now st => ?_⟩
  rcases step with _ | ⟨sid⟩
  · rfl
  · rcases sid with _ | i
    · rfl
    · by_cases hi : i = ""
      · simp [stepFinished, hi]
      · cases hl : lookupKey st.steps i with
        | none => simp [stepFinished, hi, hl]
        | some r =>
          have hsteps : (stepFinished (some ⟨some i⟩) now st).steps =
              setKey st.steps i
                ({ r with «end» := some (formatTimestamp (now - st.testStartedAt)) }) := by
            simp [stepFinished, hi, hl]
          rw [hsteps]
          exact map_stepProj_setKey_end st.steps i r _ hl

/-! ### Claim C7 -/

/-- C7: the `event.test.after` handler writes a file exactly when a video
artifact path is present.  With no test object, no artifact map, no `video`
entry, or a falsy (empty) video path, nothing is written and the test object
is returned untouched; with a video path `v`, the write goes to
`{dir of v}/{name of v}.{srt|vtt}` and the same path is recorded under the
`subtitle` key of the artifact map. -/
theorem C7_video_gates_write :
    (∀ (format : Option String) (st : State), testAfter format st none = (none, none)) ∧
    (∀ (format : Option String) (st : State) (t : TestObj), t.artifacts = none →
      testAfter format st (some t) = (none, some t)) ∧
    (∀ (format : Option String) (st : State) (t : TestObj) (a : Artifacts),
      t.artifacts = some a → a.video = none → testAfter format st (some t) = (none, some t)) ∧
    (∀ (format : Option String) (st : State) (t : TestObj) (a : Artifacts),
      t.artifacts = some a → a.video = some "" → testAfter format st (some t) = (none, some t)) ∧
    (∀ (format : Option String) (st : State) (t : TestObj) (a : Artifacts) (v : String),
      t.artifacts = some a → a.video = some v → v ≠ "" →
      testAfter format st (some t) =
        (some (pathDir v ++ "/" ++ pathName v ++ "." ++ subtitleExt format,
           subtitleContent format (sortSteps (st.steps.map Prod.snd))),
         some ⟨some ⟨some v,
           some (pathDir v ++ "/" ++ pathName v ++ "." ++ subtitleExt format)⟩⟩)) := by
  refine ⟨fun _ _ => rfl, fun format st t ht => ?_, fun format st t a ht ha => ?_,
    fun format st t a ht ha => ?_, fun format st t a v ht ha hv => ?_⟩
  · simp [testAfter, ht]
  · simp [testAfter, ht, ha]
  · simp [testAfter, ht, ha]
  · simp [testAfter, ht, ha, hv]

/-- Witness for C7 at concrete inputs: a test with video `/a/b/test.mp4` and
no recorded steps gets `/a/b/test.srt` written (empty contents) and recorded;
a test without an artifact map is untouched. -/
theorem C7_video_gates_write_witness :
    testAfter none { steps := [], testStartedAt := 0 }
        (some ⟨some ⟨some "/a/b/test.mp4", none⟩⟩) =
      (some ("/a/b/test.srt", ""),
       some ⟨some ⟨some "/a/b/test.mp4", some "/a/b/test.srt"⟩⟩) ∧
    testAfter none { steps := [], testStartedAt := 0 } (some ⟨none⟩) = (none, some ⟨none⟩) := by
  constructor
  · have h := C7_video_gates_write.2.2.2.2 none { steps := [], testStartedAt := 0 }
        ⟨some ⟨some "/a/b/test.mp4", none⟩⟩ ⟨some "/a/b/test.mp4", none⟩ "/a/b/test.mp4"
        rfl rfl (by decide)
    rw [h]
    decide
  · exact C7_video_gates_write.2.1 none { steps := [], testStartedAt := 0 } ⟨none⟩ rfl

/-! ### Claim C8 -/

/-- C8: exactly the configuration value `'WEBVTT'` selects WebVTT output —
the document is the header `"WEBVTT\n\n"` followed by the cues with `'.'` as
millisecond separator; every other configuration (including an unset
`format`) selects SRT — extension `srt`, no header, `','` as separator. -/
theorem C8_webvtt_header_and_separator :
    ∀ (format : Option String) (l : List StepRecord),
      (format = some "WEBVTT" →
        subtitleExt format = "vtt" ∧
        subtitleContent format l = "WEBVTT\n\n" ++ cueText "." l ∧
        ∃ rest : String, subtitleContent format l = "WEBVTT\n\n" ++ rest) ∧
      (format ≠ some "WEBVTT" →
        subtitleExt format = "srt" ∧ subtitleContent format l = cueText "," l) := by
  intro format l
  constructor
  · intro h
    subst h
    exact ⟨rfl, rfl, ⟨cueText "." l, rfl⟩⟩
  · intro h
    have he : subtitleExt format = "srt" := by
      rw [subtitleExt, if_neg h]
    refine ⟨he, ?_⟩
    rw [subtitleContent, he, if_neg (by decide : ¬("srt" : String) = "vtt"),
      if_neg (by decide : ¬("srt" : String) = "vtt")]
    exact str_empty_append _

/-- Witness for C8 at concrete inputs. -/
theorem C8_webvtt_header_and_separator_witness :
    subtitleContent (some "WEBVTT") [] = "WEBVTT\n\n" ++ cueText "." [] ∧
    subtitleExt none = "srt" ∧ subtitleContent none [] = cueText "," [] :=
  ⟨((C8_webvtt_header_and_separator (some "WEBVTT") []).1 rfl).2.1,
   (C8_webvtt_header_and_separator none []).2 (by decide)⟩

/-! ### Claim C10 -/

theorem cuesFrom_of_no_end (msId : String) :
    ∀ (i : Nat) (l : List StepRecord), (∀ r ∈ l, r.«end» = none) → cuesFrom msId i l = ""
  | _, [], _ => rfl
  | i, r :: rs, h => by
    have hr : r.«end» = none := h r (List.mem_cons_self r rs)
    have hrs := cuesFrom_of_no_end msId (i + 1) rs (fun x hx => h x (List.mem_cons_of_mem r hx))
    simp only [cuesFrom, hr, hrs]
    exact str_empty_append ""

/-- C10: when a video artifact is present, the subtitle file is written and
recorded even if no recorded step ever finished (in particular with zero
recorded steps): the contents are empty for SRT and exactly the
`"WEBVTT\n\n"` header for WebVTT. -/
theorem C10_writes_even_with_no_finished_steps :
    ∀ (format : Option String) (st : State) (t : TestObj) (a : Artifacts) (v : String),
      t.artifacts = some a → a.video = some v → v ≠ "" →
      (∀ p ∈ st.steps, (p.2).«end» = none) →
      testAfter format st (some t) =
        (some (pathDir v ++ "/" ++ pathName v ++ "." ++ subtitleExt format,
           if format = some "WEBVTT" then "WEBVTT\n\n" else ""),
         some ⟨some ⟨some v,
           some (pathDir v ++ "/" ++ pathName v ++ "." ++ subtitleExt format)⟩⟩) := by
  intro format st t a v ht ha hv hnone
  have hmem : ∀ r ∈ sortSteps (st.steps.map Prod.snd), r.«end» = none := by
    intro r hr
    have hr' : r ∈ st.steps.map Prod.snd := ((List.perm_insertionSort stepLE _).mem_iff).mp hr
    rcases List.mem_map.mp hr' with ⟨p, hp, rfl⟩
    exact hnone p hp
  have hcue : ∀ msId : String, cueText msId (sortSteps (st.steps.map Prod.snd)) = "" :=
    fun msId => cuesFrom_of_no_end msId 0 _ hmem
  have hcontent : subtitleContent format (sortSteps (st.steps.map Prod.snd)) =
      if format = some "WEBVTT" then "WEBVTT\n\n" else "" := by
    rw [subtitleContent, hcue]
    by_cases h : format = some "WEBVTT"
    · simp [subtitleExt, h, str_append_empty]
    · simp [subtitleExt, h, str_empty_append]
  simp only [testAfter, ht, ha, if_neg hv]
  rw [hcontent]

/-- Witness for C10 at a concrete input: one recorded, never-finished step;
the SRT file is still written, with empty contents. -/
theorem C10_writes_even_with_no_finished_steps_witness :
    testAfter none stEx (some ⟨some ⟨some "/a/b/test.mp4", none⟩⟩) =
      (some ("/a/b/test.srt", ""),
       some ⟨some ⟨some "/a/b/test.mp4", some "/a/b/test.srt"⟩⟩) := by
  have h := C10_writes_even_with_no_finished_steps none stEx
      ⟨some ⟨some "/a/b/test.mp4", none⟩⟩ ⟨some "/a/b/test.mp4", none⟩ "/a/b/test.mp4"
      rfl rfl (by decide) (by decide)
  rw [h]
  decide

/-! ### Claim C2 -/

/-- Example session: three steps start at 1000, 2000 and 3000 ms absolute
time (test started at 1000); the first and third finish, the second never
does. -/
def exSt : State :=
  stepFinished (some ⟨some "id3"⟩) 3500
    (stepFinished (some ⟨some "id1"⟩) 1500
      (stepStarted 3000 "id3" "I" "seeElement" (some ["#done"])
        (stepStarted 2000 "id2" "I" "click" (some ["Login"])
          (stepStarted 1000 "id1" "I" "amOnPage" (some ["/"])
            (testBefore 1000 { steps := [], testStartedAt := 0 })))))

/-- C2 (counterexample): in the session `exSt` the unterminated second step
makes the emitted cue numbers `1` and `3` — the numbering of the cue after it
has a gap — so the emitted cue text differs from the consecutive numbering
the claim describes (`cuesSpec`, which would number them `1` and `2`). -/
theorem C2_counterexample_gap_in_numbering :
    cueText "," (sortSteps (exSt.steps.map Prod.snd)) ≠
      cuesSpec "," 0 (sortSteps (exSt.steps.map Prod.snd)) ∧
    (testAfter none exSt (some ⟨some ⟨some "/a/b/test.mp4", none⟩⟩)).1 =
      some ("/a/b/test.srt",
        "1\n00:00:00,000 --> 00:00:00,500\nI.amOnPage(/)\n\n3\n00:00:02,000 --> 00:00:02,500\nI.seeElement(#done)\n\n") := by
  constructor
  · decide
  · decide

/-- C2 (amended): cue numbers are the 1-based positions of the steps in the
full sorted list, not in its sublist of finished steps: a step that started
but never finished contributes no cue, yet still advances the numbering, so
the cues of subsequent finished steps skip its position — splitting the list
around an unfinished step `b` shifts the numbering of everything after `b` by
`l1.length + 1`, leaving a gap at `b`'s position. -/
theorem C2_amended_unfinished_step_leaves_gap :
    ∀ (msId : String) (i : Nat) (l1 l2 : List StepRecord) (b : StepRecord),
      b.«end» = none →
      cuesFrom msId i (l1 ++ b :: l2) =
        cuesFrom msId i l1 ++ cuesFrom msId (i + l1.length + 1) l2
  | msId, i, [], l2, b, hb => by
    simp only [List.nil_append, cuesFrom, hb, List.length_nil, Nat.add_zero]
  | msId, i, a :: l1, l2, b, hb => by
    have ih := C2_amended_unfinished_step_leaves_gap msId (i + 1) l1 l2 b hb
    have harith : i + 1 + l1.length + 1 = i + (l1.length + 1) + 1 := by omega
    show (match a.«end» with
        | some e => cueBlock msId (i + 1) a.start e a.title
        | none => "") ++ cuesFrom msId (i + 1) (l1 ++ b :: l2) =
      ((match a.«end» with
        | some e => cueBlock msId (i + 1) a.start e a.title
        | none => "") ++ cuesFrom msId (i + 1) l1) ++ cuesFrom msId (i + (l1.length + 1) + 1) l2
    rw [ih, harith]
    exact (str_append_assoc _ _ _).symm

/-- Finished example record used by the C2 amended witness. -/
def recA : StepRecord :=
  { start := "00:00:00#000", startedAt := 0, title := "A", «end» := some "00:00:01#000" }

/-- Unfinished example record used by the C2 amended witness. -/
def recB : StepRecord :=
  { start := "00:00:01#000", startedAt := 1000, title := "B", «end» := none }

/-- Finished example record used by the C2 amended witness. -/
def recC : StepRecord :=
  { start := "00:00:02#000", startedAt := 2000, title := "C", «end» := some "00:00:03#000" }

/-- Witness for the amended C2 at a concrete input. -/
theorem C2_amended_witness :
    cuesFrom "," 0 ([recA] ++ recB :: [recC]) =
      cuesFrom "," 0 [recA] ++ cuesFrom "," (0 + [recA].length + 1) [recC] :=
  C2_amended_unfinished_step_leaves_gap "," 0 [recA] [recC] recB rfl

end Subtitles
